import Mathlib

/-!
Shallow embedding of the UniCT-Exam-Extractor core (src/exam_services.py):
Italian date resolution (`ItalianDateParser.parse_day_list`,
`ItalianDateParser.parse_full_date`), the two table extractors
(`ExamPdfParser.parse_regular`, `ExamPdfParser.parse_out_of_course`) over
already-extracted tables, and the deduplicate-and-sort step of
`ExamRepository.save_exams`.

Python strings are modelled as Lean `String` / `List Char`; the claims only
exercise ASCII behaviour of `str.upper` / `\d` / `\s` / `[a-zA-Z]`, so those
character classes are modelled over ASCII.  `datetime.date` is modelled as a
plain triple of integers together with the validity check its constructor
performs (proleptic Gregorian, year 1..9999).
-/

/-- Model of Python `datetime.date`: a plain year/month/day triple.  Validity
is NOT baked into the structure; it is checked by `mkDate`, mirroring the
`ValueError` raised by the Python constructor. -/
structure PyDate where
  year : Int
  month : Int
  day : Int
deriving DecidableEq, Repr

/-- Gregorian leap-year test, as `calendar.isleap` / `datetime` use. -/
def isLeap (y : Int) : Bool :=
  (y % 4 == 0 && y % 100 != 0) || y % 400 == 0

/-- Days in a month of the proleptic Gregorian calendar. -/
def daysInMonth (y m : Int) : Int :=
  if m = 2 then (if isLeap y then 29 else 28)
  else if m = 4 ∨ m = 6 ∨ m = 9 ∨ m = 11 then 30
  else 31

/-- The check performed by Python's `date(year, month, day)` constructor:
`MINYEAR = 1 ≤ year ≤ MAXYEAR = 9999`, month in range, day in range. -/
def validDate (y m d : Int) : Bool :=
  1 ≤ y && y ≤ 9999 && 1 ≤ m && m ≤ 12 && 1 ≤ d && d ≤ daysInMonth y m

/-- Validity of a `PyDate` value. -/
def PyDate.valid (d : PyDate) : Bool :=
  validDate d.year d.month d.day

/-- The exception classes `date(year, month, day)` can raise: `ValueError`
from range validation, `OverflowError` from the preceding conversion of each
argument to a 32-bit C int.  The source's `except ValueError` handlers do not
catch `OverflowError`. -/
inductive PyError where
  | valueError
  | overflowError
deriving DecidableEq, Repr

/-- The 32-bit C-int range every `date()` argument must fit (checked by
CPython's argument conversion before any validation). -/
def fitsCInt (v : Int) : Bool :=
  -2147483648 ≤ v && v ≤ 2147483647

/-- `date(year, month, day)` returning `none` on a failed construction.
This collapses `ValueError` and `OverflowError` into one failure; `mkDateE`
below keeps the two classes apart, and this collapsed form is faithful
exactly where the overflow branch is unreachable (see
`parse_full_date_checked_ok`) or where a crash would emit nothing anyway. -/
def mkDate (y m d : Int) : Option PyDate :=
  if validDate y m d then some ⟨y, m, d⟩ else none

/-- `date(year, month, day)` with its true error classes: `OverflowError`
when an argument does not fit a C int (raised before any validation),
`ValueError` when the in-range triple is not a valid date. -/
def mkDateE (y m d : Int) : Except PyError PyDate :=
  if fitsCInt y && fitsCInt m && fitsCInt d then
    (if validDate y m d then .ok ⟨y, m, d⟩ else .error .valueError)
  else .error .overflowError

/-- Python `\s` on the inputs at hand (ASCII whitespace). -/
def isPySpace (c : Char) : Bool :=
  c == ' ' || c == '\t' || c == '\n' || c == '\r' || c == '\x0b' || c == '\x0c'

/-- `int` applied to a non-empty string of decimal digits. -/
def natOfDigits (l : List Char) : Nat :=
  l.foldl (fun a c => a * 10 + (c.toNat - 48)) 0

/-- Scanner for `re.findall(r"\d+", s)`: `cur` holds the digits of the run
in progress, most recent first. -/
def findAllDigitsGo (cur : List Char) : List Char → List (List Char)
  | [] => if cur.isEmpty then [] else [cur.reverse]
  | c :: t =>
    if c.isDigit then findAllDigitsGo (c :: cur) t
    else if cur.isEmpty then findAllDigitsGo [] t
    else cur.reverse :: findAllDigitsGo [] t

/-- `re.findall(r"\d+", s)`: the maximal runs of decimal digits of `s`,
left to right.  `\d` is modelled over the ASCII digits `0-9`; Python's `\d`
(and `int()`) additionally accept the other Unicode decimal digits, so
theorems that quantify over arbitrary text restrict it to ASCII, where the
two notions agree. -/
def reFindAllDigits (l : List Char) : List (List Char) :=
  findAllDigitsGo [] l

/-- `ItalianDateParser.MONTHS`: the fixed Italian month table (both 3-letter
and full-name keys). -/
def MONTHS : String → Option Int
  | "GEN" => some 1
  | "FEB" => some 2
  | "MAR" => some 3
  | "APR" => some 4
  | "MAG" => some 5
  | "GIU" => some 6
  | "LUG" => some 7
  | "AGO" => some 8
  | "SET" => some 9
  | "OTT" => some 10
  | "NOV" => some 11
  | "DIC" => some 12
  | "GENNAIO" => some 1
  | "FEBBRAIO" => some 2
  | "MARZO" => some 3
  | "APRILE" => some 4
  | "MAGGIO" => some 5
  | "GIUGNO" => some 6
  | "LUGLIO" => some 7
  | "AGOSTO" => some 8
  | "SETTEMBRE" => some 9
  | "OTTOBRE" => some 10
  | "NOVEMBRE" => some 11
  | "DICEMBRE" => some 12
  | _ => none

/-- Python `str.upper` restricted to the ASCII letters exercised here. -/
def pyUpperStr (s : String) : String :=
  String.mk (s.data.map Char.toUpper)

/-- `ItalianDateParser.parse_day_list`: run `re.findall(r"\d+", day_str)`,
then build `date(year, month, int(run))` for each run, silently skipping the
ones whose construction raises `ValueError`.  The `foldl` mirrors the Python
accumulation loop with its `try/except` body.  This value-level form uses the
collapsed `mkDate`; `parse_day_list_checked` below keeps the `OverflowError`
path and agrees with this one whenever no `date()` argument overflows. -/
def parse_day_list (day_str : String) (month year : Int) : List PyDate :=
  (reFindAllDigits day_str.data).foldl
    (fun acc run =>
      match mkDate year month (natOfDigits run) with
      | some d => acc ++ [d]
      | none => acc)
    []

/-- `parse_day_list` with the error path kept: the loop's `except ValueError`
skips runs whose day is out of range, but an `OverflowError` from the C-int
argument conversion is not caught — it aborts the whole call and propagates.
It is raised only when a `date()` call is actually attempted, i.e. only when
a digit run exists. -/
def parse_day_list_checked (day_str : String) (month year : Int) :
    Except PyError (List PyDate) :=
  (reFindAllDigits day_str.data).foldl
    (fun acc run =>
      match acc with
      | .error e => .error e
      | .ok l =>
        match mkDateE year month (natOfDigits run) with
        | .ok d => .ok (l ++ [d])
        | .error .valueError => .ok l
        | .error .overflowError => .error .overflowError)
    (.ok [])

/-- One attempt of `re.search(r"(\d{1,2})\s+([a-zA-Z]+)\s+(\d{4})", ...)` at a
fixed start position.  Because each character class of the pattern is disjoint
from its successor, the regex engine's greedy matching with backtracking is
equivalent to this deterministic maximal-munch matcher: a run of 1 or 2 digits
(a longer run fails both greedy alternatives), at least one whitespace, at
least one ASCII letter, at least one whitespace, and then at least 4 digits of
which the first 4 form the year group. -/
def matchFullAt (l : List Char) : Option (Nat × String × Nat) :=
  let ds := l.takeWhile Char.isDigit
  let r1 := l.dropWhile Char.isDigit
  if ds.length = 0 ∨ 2 < ds.length then none
  else
    let ws1 := r1.takeWhile isPySpace
    let r2 := r1.dropWhile isPySpace
    if ws1.isEmpty then none
    else
      let ls := r2.takeWhile Char.isAlpha
      let r3 := r2.dropWhile Char.isAlpha
      if ls.isEmpty then none
      else
        let ws2 := r3.takeWhile isPySpace
        let r4 := r3.dropWhile isPySpace
        if ws2.isEmpty then none
        else
          let ys := r4.takeWhile Char.isDigit
          if ys.length < 4 then none
          else some (natOfDigits ds, String.mk ls, natOfDigits (ys.take 4))

/-- `re.search` for the full-date pattern: try every start position left to
right and return the first (leftmost) match. -/
def searchFullDate : List Char → Option (Nat × String × Nat)
  | [] => matchFullAt []
  | c :: t =>
    match matchFullAt (c :: t) with
    | some r => some r
    | none => searchFullDate t

/-- `ItalianDateParser.parse_full_date`: find the first
`<1-2 digits> <letters> <4 digits>` pattern, resolve the month token by the
first three letters of its uppercased form, and build the date, returning
`none` on any failure. -/
def parse_full_date (raw_text : String) : Option PyDate :=
  match searchFullDate raw_text.data with
  | none => none
  | some (day, month_name, year) =>
    match MONTHS ((pyUpperStr month_name).take 3) with
    | none => none
    | some month => mkDate (Int.ofNat year) month (Int.ofNat day)

/-- `parse_full_date` with the error path kept (its `try/except ValueError`
likewise does not catch `OverflowError`).  Here the overflow branch is
unreachable — the day group has at most 2 digits, the year group exactly 4,
and the month comes from the fixed table — which
`parse_full_date_checked_ok` proves, justifying the `Option` form above. -/
def parse_full_date_checked (raw_text : String) : Except PyError (Option PyDate) :=
  match searchFullDate raw_text.data with
  | none => .ok none
  | some (day, month_name, year) =>
    match MONTHS ((pyUpperStr month_name).take 3) with
    | none => .ok none
    | some month =>
      match mkDateE (Int.ofNat year) month (Int.ofNat day) with
      | .ok d => .ok (some d)
      | .error .valueError => .ok none
      | .error .overflowError => .error .overflowError

/-- `ExamRecord`: a single exam sitting (subject, date, record type). -/
structure ExamRecord where
  materia : String
  data_esame : PyDate
  tipo : String
deriving DecidableEq, Repr

/-- One extracted table: rows of cells; `pdfplumber` cells are `str | None`,
so a cell is `Option String`. -/
abbrev RawTable := List (List (Option String))

/-- Python truthiness of a cell (`None` and `""` are falsy). -/
def cellTruthy : Option String → Bool
  | none => false
  | some s => s ≠ ""

/-- Python `str(cell)` on a `str | None` cell. -/
def strCell : Option String → String
  | none => "None"
  | some s => s

/-- Cell normalisation `str(cell).replace("\n", " ").strip()`. -/
def pyStrip (l : List Char) : List Char :=
  ((l.dropWhile isPySpace).reverse.dropWhile isPySpace).reverse

/-- `.replace("\n", " ")` at character level. -/
def nlToSpace (c : Char) : Char :=
  if c = '\n' then ' ' else c

/-- `str(cell).replace("\n", " ").strip()` on a string. -/
def normCell (s : String) : String :=
  String.mk (pyStrip (s.data.map nlToSpace))

/-- Python `tok in s` (substring containment) on character lists:
`needle` occurs contiguously in `hay`. -/
def listStartsWith : List Char → List Char → Bool
  | [], _ => true
  | _ :: _, [] => false
  | a :: as, b :: bs => a == b && listStartsWith as bs

/-- Substring containment (`tok in s` for Python strings). -/
def containsSub (needle hay : List Char) : Bool :=
  if listStartsWith needle hay then true
  else
    match hay with
    | [] => false
    | _ :: t => containsSub needle t

/-- `tok in s` on strings. -/
def containsTok (needle s : String) : Bool :=
  containsSub needle.data s.data

/-- One attempt of `re.search(r"([A-Za-z]+)\s*(\d{4})", col_name)` at a fixed
start position (again the character classes are pairwise disjoint, so greedy
matching is deterministic maximal-munch): a non-empty run of ASCII letters,
optional whitespace, then at least 4 digits whose first 4 form the year. -/
def matchMonthYearAt (l : List Char) : Option (String × Nat) :=
  let ls := l.takeWhile Char.isAlpha
  let r1 := l.dropWhile Char.isAlpha
  if ls.isEmpty then none
  else
    let r2 := r1.dropWhile isPySpace
    let ys := r2.takeWhile Char.isDigit
    if ys.length < 4 then none
    else some (String.mk ls, natOfDigits (ys.take 4))

/-- `re.search` for the month-year header pattern, leftmost match. -/
def searchMonthYear : List Char → Option (String × Nat)
  | [] => matchMonthYearAt []
  | c :: t =>
    match matchMonthYearAt (c :: t) with
    | some r => some r
    | none => searchMonthYear t

/-- The `month_columns` map of `parse_regular`: for each header cell at index
`idx ≥ 1` whose text matches `<letters><optional ws><4 digits>` and whose
letter token's 3-letter uppercased prefix is a known month, the entry
`(idx, month, year)`, in ascending column order (Python dict insertion
order). -/
def monthColumns (header : List String) : List (Nat × Int × Int) :=
  (List.enumFrom 1 (header.drop 1)).filterMap
    (fun p =>
      match searchMonthYear p.2.data with
      | none => none
      | some (month_name, year) =>
        match MONTHS ((pyUpperStr month_name).take 3) with
        | none => none
        | some month => some (p.1, month, Int.ofNat year))

/-- Contribution of one mapped month column `(idx, month, year)` to the
records of one regular-schema body row: skipped when the row is too short or
the cell falsy, otherwise one `Ordinario` record per day resolved from the
cell text (`.replace("\n", " ")`, no strip, as in the source). -/
def regularCol (materia : String) (row : List (Option String)) :
    Nat × Int × Int → List ExamRecord
  | (idx, month, year) =>
    if row.length ≤ idx ∨ cellTruthy (row.getD idx none) = false then []
    else
      let day_text := String.mk ((strCell (row.getD idx none)).data.map nlToSpace)
      (parse_day_list day_text month year).map
        (fun d => { materia := materia, data_esame := d, tipo := "Ordinario" })

/-- Records of one body row of a regular-schema table. -/
def regularRow (mcols : List (Nat × Int × Int)) (row : List (Option String)) :
    List ExamRecord :=
  if cellTruthy (row.headD none) = false then []
  else
    let materia := normCell (strCell (row.headD none))
    let mu := pyUpperStr materia
    if materia = "" ∨ containsTok "AULA" mu ∨ containsTok "PRIMO ANNO" mu ∨
        containsTok "SECONDO ANNO" mu then []
    else mcols.flatMap (regularCol materia row)

/-- Records of one table under `parse_regular`: skip empty tables/headers,
skip tables with fewer than 2 header columns or whose first header cell
contains "INSEGNAMENTO" (uppercased), otherwise build the month-column map
and process every body row. -/
def regularTableRecords (table : RawTable) : List ExamRecord :=
  match table with
  | [] => []
  | hrow :: body =>
    if hrow.isEmpty then []
    else
      let header := hrow.map (fun c => normCell (strCell c))
      if header.length < 2 ∨ containsTok "INSEGNAMENTO" (pyUpperStr (header.headD "")) then []
      else body.flatMap (regularRow (monthColumns header))

/-- `ExamPdfParser.parse_regular`, over the tables already extracted from the
PDF pages (the `pdfplumber` interaction itself is outside the core). -/
def parse_regular (pages : List (List RawTable)) : List ExamRecord :=
  pages.flatMap (fun tables => tables.flatMap regularTableRecords)

/-- Records of one body row of an out-of-course table. -/
def oocRow (row : List (Option String)) : List ExamRecord :=
  if cellTruthy (row.headD none) = false then []
  else
    let materia := normCell (strCell (row.headD none))
    let mu := pyUpperStr materia
    if materia = "" ∨ containsTok "ANNO" mu ∨ containsTok "CORSO DI LAUREA" mu then []
    else
      (row.drop 1).filterMap
        (fun cell =>
          if cellTruthy cell = false then none
          else
            (parse_full_date (normCell (strCell cell))).map
              (fun d => { materia := materia, data_esame := d, tipo := "Fuori Corso" }))

/-- Records of one table under `parse_out_of_course`: the gate is Python list
membership `"INSEGNAMENTO" in header`, i.e. some normalised uppercased header
cell is EXACTLY the token. -/
def outOfCourseTableRecords (table : RawTable) : List ExamRecord :=
  match table with
  | [] => []
  | hrow :: body =>
    if hrow.isEmpty then []
    else
      let header := hrow.map (fun c => pyUpperStr (normCell (strCell c)))
      if header.contains "INSEGNAMENTO" = false then []
      else body.flatMap oocRow

/-- `ExamPdfParser.parse_out_of_course` over extracted tables. -/
def parse_out_of_course (pages : List (List RawTable)) : List ExamRecord :=
  pages.flatMap (fun tables => tables.flatMap outOfCourseTableRecords)

/-- Python string `<`: lexicographic comparison by code point. -/
def strLtB : List Char → List Char → Bool
  | _, [] => false
  | [], _ :: _ => true
  | a :: as, b :: bs =>
    decide (a.toNat < b.toNat) || (a.toNat == b.toNat && strLtB as bs)

/-- Python `<` on strings. -/
def strLt (s t : String) : Bool :=
  strLtB s.data t.data

/-- A deduplication triple `(materia, data_iso, tipo)` as used by
`save_exams`. -/
abbrev Triple := String × String × String

/-- Python `<` on the sort keys `(row[1], row[0], row[2])`, i.e. the
lexicographic tuple order on `(data_iso, materia, tipo)`. -/
def tripleLt (a b : Triple) : Bool :=
  strLt a.2.1 b.2.1 ||
    (a.2.1 == b.2.1 &&
      (strLt a.1 b.1 || (a.1 == b.1 && strLt a.2.2 b.2.2)))

/-- The corresponding non-strict key order. -/
def tripleLe (a b : Triple) : Bool :=
  !(tripleLt b a)

/-- `tripleLe` as a relation, for `List.insertionSort`. -/
def tripleLeR (a b : Triple) : Prop :=
  tripleLe a b = true

instance : DecidableRel tripleLeR := fun a b =>
  inferInstanceAs (Decidable (tripleLe a b = true))

/-- `sorted(·, key=lambda row: (row[1], row[0], row[2]))`.  Python's `sorted`
and any other sort agree here because the key order is total and antisymmetric
on the deduplicated input, so the sorted result is unique. -/
def sortTriples (l : List Triple) : List Triple :=
  l.insertionSort tripleLeR

/-- The digit character of `n % 10`-style values (`n < 10`). -/
def digitChar (n : Nat) : Char :=
  if n = 0 then '0' else if n = 1 then '1' else if n = 2 then '2'
  else if n = 3 then '3' else if n = 4 then '4' else if n = 5 then '5'
  else if n = 6 then '6' else if n = 7 then '7' else if n = 8 then '8' else '9'

/-- `n` printed in decimal, zero-padded to exactly `w` digits (most
significant first), as the C-style `%0wd` used by `date.isoformat`. -/
def padDigits : Nat → Nat → List Char
  | 0, _ => []
  | w + 1, n => digitChar (n / 10 ^ w) :: padDigits w (n % 10 ^ w)

/-- `date.isoformat()`: `YYYY-MM-DD`. -/
def isoChars (d : PyDate) : List Char :=
  padDigits 4 d.year.toNat ++ '-' :: (padDigits 2 d.month.toNat ++ '-' :: padDigits 2 d.day.toNat)

/-- `date.isoformat()` as a string. -/
def isoformat (d : PyDate) : String :=
  String.mk (isoChars d)

/-- `ExamRecord.data_iso`. -/
def data_iso (r : ExamRecord) : String :=
  isoformat r.data_esame

/-- The `(exam.materia, exam.data_iso, exam.tipo)` triple of a record. -/
def recordTriple (r : ExamRecord) : Triple :=
  (r.materia, data_iso r, r.tipo)

/-- The deduplicate-and-sort step of `save_exams`:
`sorted({...}, key=lambda row: (row[1], row[0], row[2]))`. -/
def dedupSortTriples (l : List Triple) : List Triple :=
  sortTriples l.dedup

/-- The `unique` list computed by `ExamRepository.save_exams`. -/
def save_exams_unique (exams : List ExamRecord) : List Triple :=
  dedupSortTriples (exams.map recordTriple)

/-- `ExamRepository.save_exams` returns `0` for an empty input and otherwise
`len(unique)` (the rows are handed to SQLite with `INSERT OR IGNORE`, outside
the core). -/
def save_exams (exams : List ExamRecord) : Nat :=
  if exams.isEmpty then 0 else (save_exams_unique exams).length

/-- Chronological (strict) order on dates: lexicographic on
(year, month, day). -/
def dateLt (a b : PyDate) : Bool :=
  decide (a.year < b.year) ||
    (a.year == b.year &&
      (decide (a.month < b.month) || (a.month == b.month && decide (a.day < b.day))))

/-- The normalised, uppercased header cells of a table, as
`parse_out_of_course` computes them. -/
def oocHeaderCells (table : RawTable) : List String :=
  (table.headD []).map (fun c => pyUpperStr (normCell (strCell c)))

/-- The spec's reading of the out-of-course gate: some normalised header
cell, case-insensitively, equals or CONTAINS the literal token.  (The code's
gate is Python list membership, i.e. exact cell equality.) -/
def specHeaderContainsTok (table : RawTable) : Bool :=
  (oocHeaderCells table).any (fun hcell => containsTok "INSEGNAMENTO" hcell)

/-- A table whose header cell strictly CONTAINS the token (without being
equal to it) and whose body row would yield a record if processed. -/
def cexTable : RawTable :=
  [[some "INSEGNAMENTO FUORI CORSO", some "1ª data"],
   [some "Analisi Matematica", some "30 ottobre 2025"]]

/-- The same table with the header cell exactly equal to the token. -/
def cexTableExact : RawTable :=
  [[some "INSEGNAMENTO", some "1ª data"],
   [some "Analisi Matematica", some "30 ottobre 2025"]]

/-! ### Order-theoretic facts about the Python comparisons -/

theorem charToNat_inj {a b : Char} (h : a.toNat = b.toNat) : a = b :=
  Char.ext (UInt32.ext h)

theorem strLtB_irrefl : ∀ l : List Char, strLtB l l = false
  | [] => rfl
  | a :: as => by
    simp [strLtB, strLtB_irrefl as]

theorem strLtB_asymm : ∀ a b : List Char, strLtB a b = true → strLtB b a = false := by
  intro a
  induction a with
  | nil =>
    intro b h
    cases b with
    | nil => simp [strLtB] at h
    | cons y ys => rfl
  | cons x xs ih =>
    intro b h
    cases b with
    | nil => simp [strLtB] at h
    | cons y ys =>
      simp only [strLtB, Bool.or_eq_true, Bool.and_eq_true, decide_eq_true_eq,
        beq_iff_eq] at h
      rcases h with h | ⟨he, hlt⟩
      · have h1 : decide (y.toNat < x.toNat) = false := by simp; omega
        have h2 : (y.toNat == x.toNat) = false := by simp; omega
        simp [strLtB, h1, h2]
      · have h1 : decide (y.toNat < x.toNat) = false := by simp; omega
        have h2 : (y.toNat == x.toNat) = true := by simp [he]
        simp [strLtB, h1, h2, ih ys hlt]

theorem strLtB_trans :
    ∀ a b c : List Char, strLtB a b = true → strLtB b c = true → strLtB a c = true := by
  intro a
  induction a with
  | nil =>
    intro b c h1 h2
    cases c with
    | nil =>
      cases b with
      | nil => simp [strLtB] at h1
      | cons y ys => simp [strLtB] at h2
    | cons z zs => rfl
  | cons x xs ih =>
    intro b c h1 h2
    cases b with
    | nil => simp [strLtB] at h1
    | cons y ys =>
      cases c with
      | nil => simp [strLtB] at h2
      | cons z zs =>
        simp only [strLtB, Bool.or_eq_true, Bool.and_eq_true, decide_eq_true_eq,
          beq_iff_eq] at h1 h2 ⊢
        rcases h1 with h1 | ⟨h1e, h1lt⟩
        · rcases h2 with h2 | ⟨h2e, h2lt⟩
          · exact Or.inl (by omega)
          · exact Or.inl (by omega)
        · rcases h2 with h2 | ⟨h2e, h2lt⟩
          · exact Or.inl (by omega)
          · exact Or.inr ⟨by omega, ih ys zs h1lt h2lt⟩

theorem strLtB_eq_of_not :
    ∀ a b : List Char, strLtB a b = false → strLtB b a = false → a = b := by
  intro a
  induction a with
  | nil =>
    intro b h1 _
    cases b with
    | nil => rfl
    | cons y ys => simp [strLtB] at h1
  | cons x xs ih =>
    intro b h1 h2
    cases b with
    | nil => simp [strLtB] at h2
    | cons y ys =>
      simp only [strLtB, Bool.or_eq_false_iff, Bool.and_eq_false_iff,
        decide_eq_false_iff_not, beq_eq_false_iff_ne, ne_eq] at h1 h2
      have hxy : x.toNat = y.toNat := by omega
      have hx : x = y := charToNat_inj hxy
      rcases h1.2 with h1' | h1'
      · exact absurd hxy h1'
      · rcases h2.2 with h2' | h2'
        · exact absurd hxy.symm h2'
        · rw [hx, ih ys h1' h2']

theorem strLt_irrefl (s : String) : strLt s s = false :=
  strLtB_irrefl s.data

theorem strLt_asymm {s t : String} (h : strLt s t = true) : strLt t s = false :=
  strLtB_asymm s.data t.data h

theorem strLt_trans {s t u : String} (h1 : strLt s t = true) (h2 : strLt t u = true) :
    strLt s u = true :=
  strLtB_trans s.data t.data u.data h1 h2

theorem strLt_eq_of_not {s t : String} (h1 : strLt s t = false) (h2 : strLt t s = false) :
    s = t := by
  have : s.data = t.data := strLtB_eq_of_not s.data t.data h1 h2
  cases s; cases t; exact congrArg String.mk this

theorem tripleLt_not_both {a b : Triple} (h1 : tripleLt a b = true)
    (h2 : tripleLt b a = true) : False := by
  obtain ⟨a1, a2, a3⟩ := a
  obtain ⟨b1, b2, b3⟩ := b
  simp only [tripleLt, Bool.or_eq_true, Bool.and_eq_true, beq_iff_eq] at h1 h2
  rcases h1 with h1 | ⟨h1e, h1r⟩
  · rcases h2 with h2 | ⟨h2e, h2r⟩
    · exact absurd (strLt_asymm h1) (by simp [h2])
    · rw [h2e] at h1; simp [strLt_irrefl] at h1
  · rcases h2 with h2 | ⟨h2e, h2r⟩
    · rw [h1e] at h2; simp [strLt_irrefl] at h2
    · rcases h1r with h1r | ⟨h1e', h1r'⟩
      · rcases h2r with h2r | ⟨h2e', h2r'⟩
        · exact absurd (strLt_asymm h1r) (by simp [h2r])
        · rw [h2e'] at h1r; simp [strLt_irrefl] at h1r
      · rcases h2r with h2r | ⟨h2e', h2r'⟩
        · rw [h1e'] at h2r; simp [strLt_irrefl] at h2r
        · exact absurd (strLt_asymm h1r') (by simp [h2r'])

theorem tripleLt_trans {a b c : Triple} (h1 : tripleLt a b = true)
    (h2 : tripleLt b c = true) : tripleLt a c = true := by
  obtain ⟨a1, a2, a3⟩ := a
  obtain ⟨b1, b2, b3⟩ := b
  obtain ⟨c1, c2, c3⟩ := c
  simp only [tripleLt, Bool.or_eq_true, Bool.and_eq_true, beq_iff_eq] at h1 h2 ⊢
  rcases h1 with h1 | ⟨h1e, h1r⟩
  · rcases h2 with h2 | ⟨h2e, h2r⟩
    · exact Or.inl (strLt_trans h1 h2)
    · exact Or.inl (h2e ▸ h1)
  · rcases h2 with h2 | ⟨h2e, h2r⟩
    · exact Or.inl (h1e ▸ h2)
    · refine Or.inr ⟨h1e.trans h2e, ?_⟩
      rcases h1r with h1r | ⟨h1e', h1r'⟩
      · rcases h2r with h2r | ⟨h2e', h2r'⟩
        · exact Or.inl (strLt_trans h1r h2r)
        · exact Or.inl (h2e' ▸ h1r)
      · rcases h2r with h2r | ⟨h2e', h2r'⟩
        · exact Or.inl (h1e' ▸ h2r)
        · exact Or.inr ⟨h1e'.trans h2e', strLt_trans h1r' h2r'⟩

theorem tripleLt_eq_of_not {a b : Triple} (h1 : tripleLt a b = false)
    (h2 : tripleLt b a = false) : a = b := by
  obtain ⟨a1, a2, a3⟩ := a
  obtain ⟨b1, b2, b3⟩ := b
  simp only [tripleLt, Bool.or_eq_false_iff, Bool.and_eq_false_iff,
    beq_eq_false_iff_ne, ne_eq] at h1 h2
  have he2 : a2 = b2 := strLt_eq_of_not h1.1 h2.1
  rcases h1.2 with h1' | h1'
  · exact absurd he2 h1'
  rcases h2.2 with h2' | h2'
  · exact absurd he2.symm h2'
  have he1 : a1 = b1 := strLt_eq_of_not h1'.1 h2'.1
  rcases h1'.2 with h1'' | h1''
  · exact absurd he1 h1''
  rcases h2'.2 with h2'' | h2''
  · exact absurd he1.symm h2''
  have he3 : a3 = b3 := strLt_eq_of_not h1'' h2''
  simp [he1, he2, he3]

instance : IsTotal Triple tripleLeR :=
  ⟨by
    intro a b
    by_cases h : tripleLt b a = true
    · right
      have : tripleLt a b = false := by
        by_contra hc
        exact tripleLt_not_both (by simpa using hc) h
      simp [tripleLeR, tripleLe, this]
    · left
      simp only [Bool.not_eq_true] at h
      simp [tripleLeR, tripleLe, h]⟩

instance : IsTrans Triple tripleLeR :=
  ⟨by
    intro a b c h1 h2
    simp only [tripleLeR, tripleLe, Bool.not_eq_true', Bool.not_eq_true] at h1 h2 ⊢
    by_contra hc
    simp only [Bool.not_eq_false] at hc
    by_cases hab : tripleLt a b = true
    · by_cases hbc : tripleLt b c = true
      · exact absurd (tripleLt_trans hbc hc) (by simp [h1])
      · simp only [Bool.not_eq_true] at hbc
        have : b = c := tripleLt_eq_of_not hbc h2
        rw [this] at h1
        exact absurd hc (by simp [h1])
    · simp only [Bool.not_eq_true] at hab
      have : a = b := tripleLt_eq_of_not hab h1
      rw [← this] at h2
      exact absurd hc (by simp [h2])⟩

/-! ### Decimal padding and the ISO rendering -/

theorem padDigits_length : ∀ w n, (padDigits w n).length = w
  | 0, _ => rfl
  | w + 1, n => by simp [padDigits, padDigits_length w]

theorem digitChar_toNat {n : Nat} (h : n < 10) : (digitChar n).toNat = 48 + n := by
  interval_cases n <;> rfl

theorem lt_of_div_lt_div {k a b : Nat} (h : a / k < b / k) : a < b := by
  by_contra hc
  push_neg at hc
  exact absurd (Nat.lt_of_lt_of_le h (Nat.div_le_div_right hc)) (Nat.lt_irrefl _)

theorem lt_iff_mod_lt_of_div_eq {k a b : Nat} (heq : a / k = b / k) :
    a < b ↔ a % k < b % k := by
  have ea : k * (a / k) + a % k = a := Nat.div_add_mod a k
  have eb : k * (b / k) + b % k = b := Nat.div_add_mod b k
  rw [heq] at ea
  generalize k * (b / k) = t at ea eb
  generalize a % k = ra at ea ⊢
  generalize b % k = rb at eb ⊢
  omega

theorem strLtB_padDigits :
    ∀ w a b, a < 10 ^ w → b < 10 ^ w →
      strLtB (padDigits w a) (padDigits w b) = decide (a < b) := by
  intro w
  induction w with
  | zero =>
    intro a b ha hb
    simp only [pow_zero, Nat.lt_one_iff] at ha hb
    subst ha; subst hb
    rfl
  | succ w ih =>
    intro a b ha hb
    have hpow : 0 < 10 ^ w := Nat.pos_pow_of_pos w (by omega)
    have hda : a / 10 ^ w < 10 := by
      rw [Nat.div_lt_iff_lt_mul hpow]
      calc a < 10 ^ (w + 1) := ha
        _ = 10 ^ w * 10 := by rw [pow_succ]
        _ = 10 * 10 ^ w := by ring
    have hdb : b / 10 ^ w < 10 := by
      rw [Nat.div_lt_iff_lt_mul hpow]
      calc b < 10 ^ (w + 1) := hb
        _ = 10 ^ w * 10 := by rw [pow_succ]
        _ = 10 * 10 ^ w := by ring
    have hma : a % 10 ^ w < 10 ^ w := Nat.mod_lt _ hpow
    have hmb : b % 10 ^ w < 10 ^ w := Nat.mod_lt _ hpow
    simp only [padDigits, strLtB, digitChar_toNat hda, digitChar_toNat hdb,
      ih _ _ hma hmb]
    rcases Nat.lt_trichotomy (a / 10 ^ w) (b / 10 ^ w) with h | h | h
    · have hab : a < b := lt_of_div_lt_div h
      have h1 : decide (48 + a / 10 ^ w < 48 + b / 10 ^ w) = true := by
        simp; omega
      simp [h1, decide_eq_true hab]
      exact Or.inl h
    · have h1 : decide (48 + a / 10 ^ w < 48 + b / 10 ^ w) = false := by
        simp [h]
      have h2 : (48 + a / 10 ^ w == 48 + b / 10 ^ w) = true := by
        simp [h]
      simp only [h1, h2, Bool.false_or, Bool.true_and]
      exact decide_eq_decide.mpr (lt_iff_mod_lt_of_div_eq h).symm
    · have hba : b < a := lt_of_div_lt_div h
      have h1 : decide (48 + a / 10 ^ w < 48 + b / 10 ^ w) = false := by
        simp; omega
      have h2 : (48 + a / 10 ^ w == 48 + b / 10 ^ w) = false := by
        simp; omega
      have h3 : decide (a < b) = false := by simp; omega
      simp [h1, h2, h3]
      exact Nat.le_of_lt h

theorem padDigits_inj {w a b : Nat} (ha : a < 10 ^ w) (hb : b < 10 ^ w)
    (h : padDigits w a = padDigits w b) : a = b := by
  rcases Nat.lt_trichotomy a b with hlt | heq | hgt
  · have := strLtB_padDigits w a b ha hb
    rw [h, strLtB_irrefl, decide_eq_true hlt] at this
    exact absurd this (by simp)
  · exact heq
  · have := strLtB_padDigits w b a hb ha
    rw [h, strLtB_irrefl, decide_eq_true hgt] at this
    exact absurd this (by simp)

theorem strLtB_append_eqlen :
    ∀ (xs ys as bs : List Char), xs.length = ys.length →
      strLtB (xs ++ as) (ys ++ bs) =
        (strLtB xs ys || (decide (xs = ys) && strLtB as bs)) := by
  intro xs
  induction xs with
  | nil =>
    intro ys as bs h
    cases ys with
    | nil => simp [strLtB]
    | cons y t => simp at h
  | cons x t ih =>
    intro ys as bs h
    cases ys with
    | nil => simp at h
    | cons y u =>
      simp only [List.length_cons, Nat.succ_inj] at h
      by_cases hxy : x = y
      · subst hxy
        have h0 : decide (x.toNat < x.toNat) = false := by simp
        simp only [List.cons_append, strLtB, h0, beq_self_eq_true, Bool.true_and,
          Bool.false_or, List.cons.injEq, eq_self_iff_true, true_and]
        exact ih u as bs h
      · have hne : x.toNat ≠ y.toNat := fun hc => hxy (charToNat_inj hc)
        have hdec : decide (x :: t = y :: u) = false := by
          simp [List.cons.injEq, hxy]
        rcases Nat.lt_trichotomy x.toNat y.toNat with hl | he | hg
        · have h1 : decide (x.toNat < y.toNat) = true := decide_eq_true hl
          simp [List.cons_append, strLtB, h1, hdec]
        · exact absurd he hne
        · have h1 : decide (x.toNat < y.toNat) = false := by simp; omega
          have h2 : (x.toNat == y.toNat) = false := by simp; omega
          simp [List.cons_append, strLtB, h1, h2, hdec]
          intro hxx
          exact absurd hxx hxy

theorem strLtB_cons_same (c : Char) (a b : List Char) :
    strLtB (c :: a) (c :: b) = strLtB a b := by
  simp [strLtB]

theorem daysInMonth_le (y m : Int) : daysInMonth y m ≤ 31 := by
  unfold daysInMonth
  split_ifs <;> omega

theorem valid_bounds {d : PyDate} (h : d.valid = true) :
    1 ≤ d.year ∧ d.year ≤ 9999 ∧ 1 ≤ d.month ∧ d.month ≤ 12 ∧
      1 ≤ d.day ∧ d.day ≤ 31 := by
  have hd := daysInMonth_le d.year d.month
  simp only [PyDate.valid, validDate, Bool.and_eq_true, decide_eq_true_eq] at h
  omega

/-- On valid dates the Python string order of the ISO renderings is exactly
the chronological order. -/
theorem strLt_isoformat {d1 d2 : PyDate} (h1 : d1.valid = true) (h2 : d2.valid = true) :
    strLt (isoformat d1) (isoformat d2) = dateLt d1 d2 := by
  obtain ⟨hy1a, hy1b, hm1a, hm1b, hd1a, hd1b⟩ := valid_bounds h1
  obtain ⟨hy2a, hy2b, hm2a, hm2b, hd2a, hd2b⟩ := valid_bounds h2
  have p4 : (10 : Nat) ^ 4 = 10000 := by norm_num
  have p2 : (10 : Nat) ^ 2 = 100 := by norm_num
  have hY1 : d1.year.toNat < 10 ^ 4 := by omega
  have hY2 : d2.year.toNat < 10 ^ 4 := by omega
  have hM1 : d1.month.toNat < 10 ^ 2 := by omega
  have hM2 : d2.month.toNat < 10 ^ 2 := by omega
  have hD1 : d1.day.toNat < 10 ^ 2 := by omega
  have hD2 : d2.day.toNat < 10 ^ 2 := by omega
  have e4 : decide (padDigits 4 d1.year.toNat = padDigits 4 d2.year.toNat) =
      decide (d1.year.toNat = d2.year.toNat) :=
    decide_eq_decide.mpr ⟨fun hp => padDigits_inj hY1 hY2 hp, fun he => by rw [he]⟩
  have e2 : decide (padDigits 2 d1.month.toNat = padDigits 2 d2.month.toNat) =
      decide (d1.month.toNat = d2.month.toNat) :=
    decide_eq_decide.mpr ⟨fun hp => padDigits_inj hM1 hM2 hp, fun he => by rw [he]⟩
  show strLtB (isoChars d1) (isoChars d2) = dateLt d1 d2
  unfold isoChars
  rw [strLtB_append_eqlen _ _ _ _ (by rw [padDigits_length, padDigits_length]),
    strLtB_cons_same,
    strLtB_append_eqlen _ _ _ _ (by rw [padDigits_length, padDigits_length]),
    strLtB_cons_same,
    strLtB_padDigits 4 _ _ hY1 hY2, strLtB_padDigits 2 _ _ hM1 hM2,
    strLtB_padDigits 2 _ _ hD1 hD2, e4, e2]
  rw [Bool.eq_iff_iff]
  simp only [dateLt, Bool.or_eq_true, Bool.and_eq_true, decide_eq_true_eq,
    beq_iff_eq]
  omega

/-- C1: `save_exams` keeps exactly one record per distinct
(materia, data_iso, tipo) triple, returns that count, and hands the triples
over sorted ascending (and without duplicates) by the composite key
(data_iso, materia, tipo); on valid dates the lexical order of the ISO
strings coincides with chronological date order. -/
theorem claim_C1 (exams : List ExamRecord) (dd1 dd2 : PyDate)
    (h1 : dd1.valid = true) (h2 : dd2.valid = true) :
    (save_exams_unique exams).length = ((exams.map recordTriple).dedup).length
    ∧ save_exams exams = (save_exams_unique exams).length
    ∧ List.Pairwise tripleLeR (save_exams_unique exams)
    ∧ (save_exams_unique exams).Nodup
    ∧ (∀ t : Triple, t ∈ save_exams_unique exams ↔ t ∈ exams.map recordTriple)
    ∧ strLt (isoformat dd1) (isoformat dd2) = dateLt dd1 dd2 := by
  refine ⟨?_, ?_, ?_, ?_, ?_, strLt_isoformat h1 h2⟩
  · exact List.length_insertionSort tripleLeR _
  · cases exams with
    | nil => rfl
    | cons a t => simp [save_exams]
  · exact List.sorted_insertionSort tripleLeR _
  · exact ((List.perm_insertionSort tripleLeR _).symm).nodup
      (List.nodup_dedup (exams.map recordTriple))
  · intro t
    rw [show save_exams_unique exams =
        ((exams.map recordTriple).dedup).insertionSort tripleLeR from rfl]
    rw [List.mem_insertionSort, List.mem_dedup]

theorem claim_C1_witness :
    (PyDate.mk 2025 10 1).valid = true ∧ (PyDate.mk 2025 10 21).valid = true ∧
      strLt (isoformat ⟨2025, 10, 1⟩) (isoformat ⟨2025, 10, 21⟩) =
        dateLt ⟨2025, 10, 1⟩ ⟨2025, 10, 21⟩ :=
  ⟨by decide, by decide,
    (claim_C1 [] ⟨2025, 10, 1⟩ ⟨2025, 10, 21⟩ (by decide) (by decide)).2.2.2.2.2⟩

/-- C8: the deduplicate-and-sort step of `save_exams` is idempotent — its
output is a fixed point. -/
theorem claim_C8 (l : List Triple) :
    dedupSortTriples (dedupSortTriples l) = dedupSortTriples l := by
  have hnd : (dedupSortTriples l).Nodup :=
    ((List.perm_insertionSort tripleLeR l.dedup).symm).nodup (List.nodup_dedup l)
  have hsorted : List.Sorted tripleLeR (dedupSortTriples l) :=
    List.sorted_insertionSort tripleLeR l.dedup
  show sortTriples (dedupSortTriples l).dedup = dedupSortTriples l
  rw [List.dedup_eq_self.mpr hnd]
  exact hsorted.insertionSort_eq

/-! ### Validity of every produced date -/

theorem mkDate_valid {y m d : Int} {dt : PyDate} (h : mkDate y m d = some dt) :
    dt.valid = true := by
  by_cases hv : validDate y m d = true
  · simp only [mkDate, hv, if_true] at h
    cases h
    simpa [PyDate.valid] using hv
  · simp only [mkDate] at h
    rw [if_neg (by simpa using hv)] at h
    cases h

theorem dayList_foldl_filterMap (month year : Int) :
    ∀ (runs : List (List Char)) (acc : List PyDate),
      runs.foldl
        (fun acc run =>
          match mkDate year month (natOfDigits run) with
          | some d => acc ++ [d]
          | none => acc) acc
      = acc ++ runs.filterMap (fun run => mkDate year month (natOfDigits run)) := by
  intro runs
  induction runs with
  | nil => simp
  | cons r t ih =>
    intro acc
    simp only [List.foldl_cons, List.filterMap_cons]
    cases hm : mkDate year month (natOfDigits r) with
    | none => simp [hm, ih]
    | some d => simp [hm, ih]

/-- The accumulation loop of `parse_day_list` is exactly a `filterMap` over
the digit runs: one date per run whose day is valid, in run order, invalid
runs skipped. -/
theorem parse_day_list_eq (s : String) (month year : Int) :
    parse_day_list s month year =
      (reFindAllDigits s.data).filterMap
        (fun run => mkDate year month (natOfDigits run)) := by
  unfold parse_day_list
  rw [dayList_foldl_filterMap]
  simp

theorem parse_day_list_valid {s : String} {m y : Int} {d : PyDate}
    (h : d ∈ parse_day_list s m y) : d.valid = true := by
  rw [parse_day_list_eq] at h
  rw [List.mem_filterMap] at h
  obtain ⟨run, _, hd⟩ := h
  exact mkDate_valid hd

theorem parse_full_date_valid {s : String} {d : PyDate}
    (h : parse_full_date s = some d) : d.valid = true := by
  unfold parse_full_date at h
  cases hsf : searchFullDate s.data with
  | none => rw [hsf] at h; cases h
  | some triple =>
    obtain ⟨day, month_name, year⟩ := triple
    rw [hsf] at h
    dsimp only at h
    cases hmo : MONTHS ((pyUpperStr month_name).take 3) with
    | none => rw [hmo] at h; cases h
    | some month =>
      rw [hmo] at h
      exact mkDate_valid h

theorem mkDateE_fits {y m d : Int} (hy : fitsCInt y = true) (hm : fitsCInt m = true)
    (hd : fitsCInt d = true) :
    mkDateE y m d =
      (match mkDate y m d with
        | some dt => Except.ok dt
        | none => Except.error PyError.valueError) := by
  unfold mkDateE mkDate
  rw [if_pos (by simp [hy, hm, hd])]
  by_cases hv : validDate y m d = true
  · rw [if_pos hv, if_pos hv]
  · rw [if_neg hv, if_neg hv]

theorem dayListChecked_foldl {month year : Int} (hm : fitsCInt month = true)
    (hy : fitsCInt year = true) :
    ∀ (runs : List (List Char)) (acc : List PyDate),
      (∀ run ∈ runs, fitsCInt (natOfDigits run) = true) →
      runs.foldl
        (fun acc run =>
          match acc with
          | Except.error e => Except.error e
          | Except.ok l =>
            match mkDateE year month (natOfDigits run) with
            | Except.ok d => Except.ok (l ++ [d])
            | Except.error PyError.valueError => Except.ok l
            | Except.error PyError.overflowError => Except.error PyError.overflowError)
        (Except.ok acc)
      = Except.ok (acc ++ runs.filterMap (fun run => mkDate year month (natOfDigits run))) := by
  intro runs
  induction runs with
  | nil =>
    intro acc _
    simp
  | cons r t ih =>
    intro acc hf
    have hr : fitsCInt (natOfDigits r) = true := hf r (List.mem_cons_self r t)
    have ht : ∀ run ∈ t, fitsCInt (natOfDigits run) = true :=
      fun run hrun => hf run (List.mem_cons_of_mem r hrun)
    simp only [List.foldl_cons, List.filterMap_cons]
    rw [mkDateE_fits hy hm hr]
    cases hmk : mkDate year month (natOfDigits r) with
    | none =>
      dsimp only
      exact ih acc ht
    | some d =>
      dsimp only
      rw [ih (acc ++ [d]) ht]
      simp

/-- On C-int-range inputs the exception-aware loop never raises and agrees
with the collapsed `parse_day_list`. -/
theorem parse_day_list_checked_ok {s : String} {m y : Int} (hm : fitsCInt m = true)
    (hy : fitsCInt y = true)
    (hruns : ∀ run ∈ reFindAllDigits s.data, fitsCInt (natOfDigits run) = true) :
    parse_day_list_checked s m y = .ok (parse_day_list s m y) := by
  unfold parse_day_list_checked
  rw [dayListChecked_foldl hm hy (reFindAllDigits s.data) [] hruns, parse_day_list_eq]
  simp

theorem natOfDigits_foldl_lt :
    ∀ (l : List Char) (acc : Nat), (∀ c ∈ l, c.isDigit = true) →
      l.foldl (fun a c => a * 10 + (c.toNat - 48)) acc < (acc + 1) * 10 ^ l.length := by
  intro l
  induction l with
  | nil =>
    intro acc _
    simp
  | cons c t ih =>
    intro acc h
    have hc : 48 ≤ c.toNat ∧ c.toNat ≤ 57 := by
      have hc0 := h c (List.mem_cons_self c t)
      simp only [Char.isDigit, Bool.and_eq_true, decide_eq_true_eq] at hc0
      exact ⟨hc0.1, hc0.2⟩
    have ht : ∀ x ∈ t, x.isDigit = true := fun x hx => h x (List.mem_cons_of_mem c hx)
    simp only [List.foldl_cons, List.length_cons]
    calc t.foldl (fun a c => a * 10 + (c.toNat - 48)) (acc * 10 + (c.toNat - 48))
        < (acc * 10 + (c.toNat - 48) + 1) * 10 ^ t.length := ih _ ht
      _ ≤ ((acc + 1) * 10) * 10 ^ t.length := Nat.mul_le_mul_right _ (by omega)
      _ = (acc + 1) * 10 ^ (t.length + 1) := by ring

theorem natOfDigits_lt {l : List Char} (h : ∀ c ∈ l, c.isDigit = true) :
    natOfDigits l < 10 ^ l.length := by
  have := natOfDigits_foldl_lt l 0 h
  simpa [natOfDigits] using this

theorem natOfDigits_takeWhile_lt_of_len {l : List Char} {k : Nat}
    (h : (l.takeWhile Char.isDigit).length ≤ k) :
    natOfDigits (l.takeWhile Char.isDigit) < 10 ^ k := by
  have hb := natOfDigits_lt (l := l.takeWhile Char.isDigit)
    (fun c hc => List.mem_takeWhile_imp hc)
  have hpow := Nat.pow_le_pow_right (show 1 ≤ 10 by omega) h
  omega

theorem natOfDigits_takeWhile_take_lt (l : List Char) (k : Nat) :
    natOfDigits ((l.takeWhile Char.isDigit).take k) < 10 ^ k := by
  have hd : ∀ c ∈ (l.takeWhile Char.isDigit).take k, c.isDigit = true :=
    fun c hc => List.mem_takeWhile_imp (List.mem_of_mem_take hc)
  have hlen : ((l.takeWhile Char.isDigit).take k).length ≤ k := by
    simp
  have hb := natOfDigits_lt hd
  have hpow := Nat.pow_le_pow_right (show 1 ≤ 10 by omega) hlen
  omega

/-- The day group of a full-date match has at most 2 digits and the year
group exactly 4, so both values are far inside the C-int range. -/
theorem matchFullAt_bounds {l : List Char} {day : Nat} {mn : String} {yr : Nat}
    (h : matchFullAt l = some (day, mn, yr)) : day ≤ 99 ∧ yr ≤ 9999 := by
  simp only [matchFullAt] at h
  split at h
  · cases h
  · next hds =>
    split at h
    · cases h
    · split at h
      · cases h
      · split at h
        · cases h
        · split at h
          · cases h
          · simp only [Option.some.injEq, Prod.mk.injEq] at h
            obtain ⟨h1, _, h3⟩ := h
            subst h1
            subst h3
            constructor
            · have hlen : (l.takeWhile Char.isDigit).length ≤ 2 := by omega
              have hb := natOfDigits_takeWhile_lt_of_len hlen
              have hp : (10 : Nat) ^ 2 = 100 := by norm_num
              omega
            · have hb := natOfDigits_takeWhile_take_lt
                ((((l.dropWhile Char.isDigit).dropWhile isPySpace).dropWhile
                  Char.isAlpha).dropWhile isPySpace) 4
              have hp : (10 : Nat) ^ 4 = 10000 := by norm_num
              omega

theorem searchFullDate_bounds :
    ∀ (l : List Char) (day : Nat) (mn : String) (yr : Nat),
      searchFullDate l = some (day, mn, yr) → day ≤ 99 ∧ yr ≤ 9999 := by
  intro l
  induction l with
  | nil =>
    intro day mn yr h
    simp only [searchFullDate] at h
    exact matchFullAt_bounds h
  | cons c t ih =>
    intro day mn yr h
    simp only [searchFullDate] at h
    cases hma : matchFullAt (c :: t) with
    | some r =>
      rw [hma] at h
      dsimp only at h
      rw [Option.some.injEq] at h
      subst h
      exact matchFullAt_bounds hma
    | none =>
      rw [hma] at h
      dsimp only at h
      exact ih day mn yr h

/-- Every entry of the month table is a month number 1..12. -/
theorem MONTHS_range {k : String} {m : Int} (h : MONTHS k = some m) :
    1 ≤ m ∧ m ≤ 12 := by
  unfold MONTHS at h
  split at h <;> first
    | (injection h with h2; omega)
    | cases h

/-- `parse_full_date` never reaches the `OverflowError` branch: the checked
version always returns `ok` of the collapsed version, for every string. -/
theorem parse_full_date_checked_ok (t : String) :
    parse_full_date_checked t = .ok (parse_full_date t) := by
  unfold parse_full_date_checked parse_full_date
  cases hsf : searchFullDate t.data with
  | none => rfl
  | some tr =>
    obtain ⟨day, mn, yr⟩ := tr
    obtain ⟨hday, hyr⟩ := searchFullDate_bounds t.data day mn yr hsf
    dsimp only
    cases hmo : MONTHS ((pyUpperStr mn).take 3) with
    | none => rfl
    | some month =>
      obtain ⟨hm1, hm2⟩ := MONTHS_range hmo
      dsimp only
      rw [mkDateE_fits (by simp [fitsCInt]; omega) (by simp [fitsCInt]; omega)
        (by simp [fitsCInt]; omega)]
      cases hmk : mkDate (Int.ofNat yr) month (Int.ofNat day) with
      | none => rfl
      | some d => rfl

theorem regularCol_valid {materia : String} {row : List (Option String)}
    {t : Nat × Int × Int} {r : ExamRecord} (h : r ∈ regularCol materia row t) :
    r.data_esame.valid = true := by
  obtain ⟨idx, month, year⟩ := t
  simp only [regularCol] at h
  split at h
  · simp at h
  · simp only [List.mem_map] at h
    obtain ⟨d, hd, rfl⟩ := h
    exact parse_day_list_valid hd

theorem regularRow_valid {mcols : List (Nat × Int × Int)}
    {row : List (Option String)} {r : ExamRecord} (h : r ∈ regularRow mcols row) :
    r.data_esame.valid = true := by
  simp only [regularRow] at h
  split at h
  · simp at h
  · split at h
    · simp at h
    · rw [List.mem_flatMap] at h
      obtain ⟨t, _, hr⟩ := h
      exact regularCol_valid hr

theorem regularTableRecords_valid {table : RawTable} {r : ExamRecord}
    (h : r ∈ regularTableRecords table) : r.data_esame.valid = true := by
  cases table with
  | nil => simp [regularTableRecords] at h
  | cons hrow body =>
    simp only [regularTableRecords] at h
    split at h
    · simp at h
    · split at h
      · simp at h
      · rw [List.mem_flatMap] at h
        obtain ⟨row, _, hr⟩ := h
        exact regularRow_valid hr

theorem parse_regular_valid {pages : List (List RawTable)} {r : ExamRecord}
    (h : r ∈ parse_regular pages) : r.data_esame.valid = true := by
  simp only [parse_regular, List.mem_flatMap] at h
  obtain ⟨tables, _, h⟩ := h
  obtain ⟨table, _, hr⟩ := h
  exact regularTableRecords_valid hr

theorem oocRow_valid {row : List (Option String)} {r : ExamRecord}
    (h : r ∈ oocRow row) : r.data_esame.valid = true := by
  simp only [oocRow] at h
  split at h
  · simp at h
  · split at h
    · simp at h
    · rw [List.mem_filterMap] at h
      obtain ⟨cell, _, he⟩ := h
      split at he
      · cases he
      · rw [Option.map_eq_some'] at he
        obtain ⟨d, hd, rfl⟩ := he
        exact parse_full_date_valid hd

theorem outOfCourseTableRecords_valid {table : RawTable} {r : ExamRecord}
    (h : r ∈ outOfCourseTableRecords table) : r.data_esame.valid = true := by
  cases table with
  | nil => simp [outOfCourseTableRecords] at h
  | cons hrow body =>
    simp only [outOfCourseTableRecords] at h
    split at h
    · simp at h
    · split at h
      · simp at h
      · rw [List.mem_flatMap] at h
        obtain ⟨row, _, hr⟩ := h
        exact oocRow_valid hr

theorem parse_out_of_course_valid {pages : List (List RawTable)} {r : ExamRecord}
    (h : r ∈ parse_out_of_course pages) : r.data_esame.valid = true := by
  simp only [parse_out_of_course, List.mem_flatMap] at h
  obtain ⟨tables, _, h⟩ := h
  obtain ⟨table, _, hr⟩ := h
  exact outOfCourseTableRecords_valid hr

theorem findAllDigitsGo_runs :
    ∀ (l cur : List Char), cur.all Char.isDigit = true →
      ∀ run ∈ findAllDigitsGo cur l, run ≠ [] ∧ run.all Char.isDigit = true := by
  intro l
  induction l with
  | nil =>
    intro cur hcur run hrun
    simp only [findAllDigitsGo] at hrun
    split at hrun
    · simp at hrun
    · next hne =>
      simp only [List.mem_singleton] at hrun
      subst hrun
      refine ⟨?_, by simpa using hcur⟩
      simp only [ne_eq, List.reverse_eq_nil_iff]
      intro hc
      exact hne (by simp [hc])
  | cons c t ih =>
    intro cur hcur run hrun
    simp only [findAllDigitsGo] at hrun
    split at hrun
    · next hdig =>
      exact ih (c :: cur) (by simp [hcur, hdig]) run hrun
    · split at hrun
      · exact ih [] (by simp) run hrun
      · next hne =>
        rcases List.mem_cons.mp hrun with hrun | hrun
        · subst hrun
          refine ⟨?_, by simpa using hcur⟩
          simp only [ne_eq, List.reverse_eq_nil_iff]
          intro hc
          exact hne (by simp [hc])
        · exact ih [] (by simp) run hrun

/-- C2 counterexample: the run "2147483648" does not form a valid day, so
the claim requires it to be silently skipped (an empty result, as the
collapsed loop indeed computes) — but `date()`'s argument conversion raises
`OverflowError`, which the loop's `except ValueError` does not catch, so the
call raises instead of returning `[]`. -/
theorem claim_C2_counterexample :
    parse_day_list_checked "2147483648" 10 2025 = .error .overflowError
    ∧ parse_day_list "2147483648" 10 2025 = [] :=
  ⟨by rfl, by rfl⟩

/-- C2 as amended: over ASCII text (where the ASCII digit model coincides
with Python's `\d`/`int`) with month, year and every digit-run value in the
C-int range, `parse_day_list` returns — without raising — one date per
maximal digit run that forms a valid day, in left-to-right run order,
silently skipping invalid runs; in particular for the two cited inputs.
Runs (or month/year) outside the C-int range instead raise `OverflowError`
(see the counterexample). -/
theorem claim_C2 (s : String) (m y : Int)
    (hm : fitsCInt m = true) (hy : fitsCInt y = true)
    (hruns : ∀ run ∈ reFindAllDigits s.data, fitsCInt (natOfDigits run) = true)
    (hascii : ∀ c ∈ s.data, c.toNat < 128) :
    parse_day_list_checked s m y =
      .ok ((reFindAllDigits s.data).filterMap (fun run => mkDate y m (natOfDigits run)))
    ∧ parse_day_list_checked s m y = .ok (parse_day_list s m y)
    ∧ (∀ run ∈ reFindAllDigits s.data, run ≠ [] ∧ run.all Char.isDigit = true)
    ∧ parse_day_list_checked "1, 21" 10 2025 = .ok [⟨2025, 10, 1⟩, ⟨2025, 10, 21⟩]
    ∧ parse_day_list_checked "32" 2 2025 = .ok [] := by
  have hok := parse_day_list_checked_ok hm hy hruns
  refine ⟨?_, hok, findAllDigitsGo_runs s.data [] rfl, by rfl, by rfl⟩
  rw [hok, parse_day_list_eq]

/-- C3: `parse_full_date` resolves the first day/month-name/year pattern via
the 3-letter uppercased prefix of the month token, is case- and
abbreviation-invariant, returns `none` when no pattern occurs, when the
prefix is unknown, or when the date is invalid, and every month resolves
identically through its full name and its 3-letter abbreviation. -/
theorem claim_C3 :
    parse_full_date "30 ottobre 2025" = some ⟨2025, 10, 30⟩
    ∧ parse_full_date "30 OTT 2025" = some ⟨2025, 10, 30⟩
    ∧ parse_full_date "invalid text" = none
    ∧ parse_full_date "30 xyz 2025" = none
    ∧ parse_full_date "32 febbraio 2025" = none
    ∧ parse_full_date "5 maggio 2024 e 6 giugno 2025" = some ⟨2024, 5, 5⟩
    ∧ (([("GEN", "gennaio"), ("FEB", "febbraio"), ("MAR", "marzo"),
        ("APR", "aprile"), ("MAG", "maggio"), ("GIU", "giugno"),
        ("LUG", "luglio"), ("AGO", "agosto"), ("SET", "settembre"),
        ("OTT", "ottobre"), ("NOV", "novembre"), ("DIC", "dicembre")].zip
          (List.range 12)).all
        (fun p =>
          (MONTHS p.1.1 == some ((p.2 : Int) + 1)) &&
            (MONTHS ((pyUpperStr p.1.2).take 3) == some ((p.2 : Int) + 1)))) = true :=
  ⟨by decide, by decide, by decide, by decide, by decide, by decide, by decide⟩

/-- C5: every record emitted by either extractor carries a date valid in the
proleptic Gregorian calendar; invalid fragments are dropped, never raised. -/
theorem claim_C5 (pagesR pagesO : List (List RawTable)) (r : ExamRecord)
    (h : r ∈ parse_regular pagesR ∨ r ∈ parse_out_of_course pagesO) :
    r.data_esame.valid = true := by
  rcases h with h | h
  · exact parse_regular_valid h
  · exact parse_out_of_course_valid h

theorem claim_C5_witness :
    ({ materia := "Mat", data_esame := ⟨2025, 10, 1⟩,
        tipo := "Ordinario" } : ExamRecord).data_esame.valid = true :=
  claim_C5 [[[[some "C", some "OTT 2025"], [some "Mat", some "1"]]]] [] _
    (Or.inl (by decide))

/-- C9 counterexample: `parse_day_list` is not exception-free for every
integer month — with month `2147483648` and any digit run present, `date()`'s
argument conversion raises `OverflowError`, which escapes the
`except ValueError` handler and propagates to the caller. -/
theorem claim_C9_counterexample :
    parse_day_list_checked "5" 2147483648 2025 = .error .overflowError := by
  rfl

/-- C9 as amended: `parse_full_date` never propagates an exception for any
input string (its day group has at most 2 digits, its year exactly 4, and
the month comes from the fixed table, so the uncaught `OverflowError` branch
is unreachable); `parse_day_list` never propagates an exception when month,
year and every digit-run value fit in a 32-bit C int (stated over ASCII
text, where the digit model is exact) — malformed input then yields an empty
list or `none` — while outside that range `OverflowError` propagates (see
the counterexample).  All produced dates are valid. -/
theorem claim_C9 (s t : String) (m y : Int)
    (hm : fitsCInt m = true) (hy : fitsCInt y = true)
    (hruns : ∀ run ∈ reFindAllDigits s.data, fitsCInt (natOfDigits run) = true)
    (hascii : ∀ c ∈ s.data, c.toNat < 128) :
    parse_day_list_checked s m y = .ok (parse_day_list s m y)
    ∧ (∀ d ∈ parse_day_list s m y, d.valid = true)
    ∧ parse_full_date_checked t = .ok (parse_full_date t)
    ∧ (∀ d : PyDate, parse_full_date t = some d → d.valid = true) := by
  refine ⟨parse_day_list_checked_ok hm hy hruns, ?_, parse_full_date_checked_ok t, ?_⟩
  · intro d hd
    exact parse_day_list_valid hd
  · intro d hd
    exact parse_full_date_valid hd

theorem claim_C9_witness :
    parse_day_list_checked "1, 21" 10 2025 = .ok (parse_day_list "1, 21" 10 2025)
    ∧ parse_full_date_checked "30 ottobre 2025" =
        .ok (parse_full_date "30 ottobre 2025") :=
  ⟨(claim_C9 "1, 21" "30 ottobre 2025" 10 2025
      (by decide) (by decide) (by decide) (by decide)).1,
   (claim_C9 "1, 21" "30 ottobre 2025" 10 2025
      (by decide) (by decide) (by decide) (by decide)).2.2.1⟩

/-! ### The out-of-course header gate (claim C4) -/

/-- C4 counterexample: the claim's "equals or contains" gate holds of
`cexTable`, yet the extractor produces zero records from it, although its
body row does produce a record once the header cell is exactly the token —
so "contains" does not imply "processed". -/
theorem claim_C4_counterexample :
    specHeaderContainsTok cexTable = true
    ∧ outOfCourseTableRecords cexTable = []
    ∧ outOfCourseTableRecords cexTableExact ≠ [] :=
  ⟨by decide, by decide, by decide⟩

/-- C4 as amended: the out-of-course extractor contributes zero records for
every table none of whose normalised uppercased header cells is EXACTLY
"INSEGNAMENTO" (Python list membership, not substring containment). -/
theorem claim_C4 (table : RawTable)
    (h : (oocHeaderCells table).contains "INSEGNAMENTO" = false) :
    outOfCourseTableRecords table = [] := by
  cases table with
  | nil => rfl
  | cons hrow body =>
    have h' : (hrow.map (fun c => pyUpperStr (normCell (strCell c)))).contains
        "INSEGNAMENTO" = false := h
    by_cases he : hrow.isEmpty = true
    · simp [outOfCourseTableRecords, he]
    · simp only [outOfCourseTableRecords]
      rw [if_neg he, if_pos h']

theorem claim_C4_witness :
    (oocHeaderCells cexTable).contains "INSEGNAMENTO" = false
    ∧ outOfCourseTableRecords cexTable = [] :=
  ⟨by decide, claim_C4 cexTable (by decide)⟩

/-- C6: banner/noise rows contribute zero records — under the Regular
extractor rows whose normalised subject is empty or whose uppercased form
contains "AULA", "PRIMO ANNO" or "SECONDO ANNO"; under the Out-of-course
extractor rows whose normalised subject is empty or whose uppercased form
contains "ANNO" or "CORSO DI LAUREA" — including the two cited examples. -/
theorem claim_C6 (mcols : List (Nat × Int × Int)) (row rowO : List (Option String))
    (h : normCell (strCell (row.headD none)) = ""
      ∨ containsTok "AULA" (pyUpperStr (normCell (strCell (row.headD none)))) = true
      ∨ containsTok "PRIMO ANNO" (pyUpperStr (normCell (strCell (row.headD none)))) = true
      ∨ containsTok "SECONDO ANNO" (pyUpperStr (normCell (strCell (row.headD none)))) = true)
    (hO : normCell (strCell (rowO.headD none)) = ""
      ∨ containsTok "ANNO" (pyUpperStr (normCell (strCell (rowO.headD none)))) = true
      ∨ containsTok "CORSO DI LAUREA" (pyUpperStr (normCell (strCell (rowO.headD none)))) = true) :
    regularRow mcols row = []
    ∧ oocRow rowO = []
    ∧ regularRow mcols [some "AULA 101", some "5"] = []
    ∧ oocRow [some "CORSO DI LAUREA IN INFORMATICA", some "30 ottobre 2025"] = [] := by
  refine ⟨?_, ?_, ?_, by decide⟩
  · by_cases hc : cellTruthy (row.headD none) = false
    · simp only [regularRow]
      rw [if_pos hc]
    · simp only [regularRow]
      rw [if_neg hc, if_pos h]
  · by_cases hc : cellTruthy (rowO.headD none) = false
    · simp only [oocRow]
      rw [if_pos hc]
    · simp only [oocRow]
      rw [if_neg hc, if_pos hO]
  · simp only [regularRow]
    rw [if_neg (by decide), if_pos (by decide)]

theorem claim_C6_witness :
    regularRow [] [some "AULA 101"] = []
    ∧ oocRow [some "CORSO DI LAUREA IN INFORMATICA"] = [] :=
  ⟨(claim_C6 [] [some "AULA 101"] [some "CORSO DI LAUREA IN INFORMATICA"]
      (by decide) (by decide)).1,
   (claim_C6 [] [some "AULA 101"] [some "CORSO DI LAUREA IN INFORMATICA"]
      (by decide) (by decide)).2.1⟩

/-- C7: a table headed `["Insegnamento","1ª data","2ª data"]` is consumed
only by the out-of-course extractor: `parse_regular` skips it whatever its
body rows are, while `parse_out_of_course` processes it (shown on a body row
that yields a record). -/
theorem claim_C7 (rows : List (List (Option String))) :
    regularTableRecords
        ([some "Insegnamento", some "1ª data", some "2ª data"] :: rows) = []
    ∧ parse_regular
        [[[some "Insegnamento", some "1ª data", some "2ª data"] :: rows]] = []
    ∧ outOfCourseTableRecords
        [[some "Insegnamento", some "1ª data", some "2ª data"],
         [some "Analisi Matematica", some "30 ottobre 2025"]] ≠ []
    ∧ parse_out_of_course
        [[[[some "Insegnamento", some "1ª data", some "2ª data"],
           [some "Analisi Matematica", some "30 ottobre 2025"]]]] ≠ [] := by
  have hreg : regularTableRecords
      ([some "Insegnamento", some "1ª data", some "2ª data"] :: rows) = [] := by
    simp only [regularTableRecords]
    rw [if_neg (by decide), if_pos (by decide)]
  refine ⟨hreg, ?_, by decide, by decide⟩
  simp [parse_regular, hreg]

theorem claim_C7_witness :
    regularTableRecords
      [[some "Insegnamento", some "1ª data", some "2ª data"]] = [] :=
  (claim_C7 []).1

theorem claim_C2_witness :
    parse_day_list_checked "1, 21" 10 2025 = .ok [⟨2025, 10, 1⟩, ⟨2025, 10, 21⟩] :=
  (claim_C2 "1, 21" 10 2025 (by decide) (by decide) (by decide) (by decide)).2.2.2.1

theorem claim_C8_witness :
    dedupSortTriples (dedupSortTriples
        [("A", "2025-10-01", "Ordinario"), ("A", "2025-10-01", "Ordinario")]) =
      dedupSortTriples
        [("A", "2025-10-01", "Ordinario"), ("A", "2025-10-01", "Ordinario")] :=
  claim_C8 [("A", "2025-10-01", "Ordinario"), ("A", "2025-10-01", "Ordinario")]

/-- C10: the Regular extractor is total over ragged rows — a mapped month
column whose index is not a valid index of the row, or whose cell is falsy,
contributes zero records (the guarded access never goes out of bounds). -/
theorem claim_C10 (materia : String) (row : List (Option String)) (idx : Nat)
    (m y : Int) (h : row.length ≤ idx ∨ cellTruthy (row.getD idx none) = false) :
    regularCol materia row (idx, m, y) = [] := by
  simp only [regularCol]
  exact if_pos h

theorem claim_C10_witness : regularCol "X" [some "X"] (3, 10, 2025) = [] :=
  claim_C10 "X" [some "X"] 3 10 2025 (Or.inl (by decide))
